import Mathlib

/-!
Shallow embedding of `src/layers/encoder.py` (a Keras `TransformerEncoder`
layer) and proofs about it.

Tensors are modelled as nested lists of real numbers: a batch is a
`List` of sequences, a sequence is a `List` of rows, a row is a `List ℝ`
of features.  Floating-point arithmetic is idealized as exact real
arithmetic.  The Keras primitives the layer delegates to
(`MultiHeadAttention`, `LayerNormalization`, `Dense`, `Sequential`) are
not part of the repository; they are modelled here from their documented
semantics:

* `Dense(units)` computes `y = x W + b`; kernels are stored
  column-major (`wT` is the list of columns), so `denseApply` returns
  one dot product per column.
* `MultiHeadAttention(num_heads, key_dim)` projects query/key/value per
  head to `key_dim` features (`value_dim` defaults to `key_dim`),
  computes scaled dot-product scores, a softmax over key positions, and
  an output projection back to the query feature size.  A boolean
  `attention_mask` of shape `(B, T, S)` forbids attending to key
  positions marked `false`; a size-one `T` axis broadcasts over query
  positions (`bcastRow`).  Masking by adding a large negative constant
  to the logits before the softmax is idealized to exact exclusion of
  the masked positions (weight `0`, and the softmax normalizer sums
  over unmasked positions only), which is its defining semantics and
  the observed float behaviour via underflow.
* `LayerNormalization()` (defaults: last axis, `epsilon = 1e-3`)
  normalizes each row to zero mean and unit variance and applies the
  learned scale `gamma` and shift `beta`.

Learned parameter values are abstracted as arbitrary reals supplied by
an `InitWeights` record; the constructor fixes all shapes, mirroring
the shapes Keras builds.
-/

abbrev Vec := List ℝ
abbrev Mat := List Vec
abbrev Tensor3 := List Mat
abbrev Mask2 := List (List Bool)
abbrev Mask3 := List (List (List Bool))

/-- Dot product of two feature vectors. -/
def dot (u v : Vec) : ℝ := (List.zipWith (· * ·) u v).sum

/-- Elementwise sum of two rows (a residual addition). -/
def addVec (u v : Vec) : Vec := List.zipWith (· + ·) u v

/-- Scale a row by a scalar. -/
def smulVec (c : ℝ) (v : Vec) : Vec := v.map (fun t => c * t)

/-- Sum a list of `n`-dimensional rows, coordinate by coordinate. -/
def vecSum (n : ℕ) (l : List Vec) : Vec :=
  (List.range n).map (fun j => (l.map (fun v => v.getD j 0)).sum)

/-- Dense layer: `y = x W + b`, with the kernel stored as its list of
columns `wT`. -/
def denseApply (wT : List Vec) (b : Vec) (x : Vec) : Vec :=
  List.zipWith (· + ·) (wT.map (fun col => dot x col)) b

/-- Rectified linear activation. -/
def relu (t : ℝ) : ℝ := max t 0

/-- Softmax over key positions, with an optional boolean key mask.
With no mask this is the ordinary softmax; with a mask, positions
marked `false` get weight `0` and the normalizer sums over the
positions marked `true` only (idealized large-negative masking). -/
noncomputable def maskedSoftmax : Option (List Bool) → List ℝ → List ℝ
  | none, ss => ss.map (fun s => Real.exp s / (ss.map Real.exp).sum)
  | some m, ss =>
      let Z := (List.zipWith (fun b s => if b then Real.exp s else (0:ℝ)) m ss).sum
      List.zipWith (fun b s => if b then Real.exp s / Z else (0:ℝ)) m ss

/-- Scaled dot-product scores of one (projected) query row against all
(projected) key rows. -/
noncomputable def scoresRow (kd : ℕ) (q : Vec) (ks : List Vec) : List ℝ :=
  ks.map (fun k => dot q k / Real.sqrt (kd : ℝ))

/-- Row of a `(T, S)` attention mask used by query position `i`; a
size-one `T` axis broadcasts over all query positions. -/
def bcastRow (am : List (List Bool)) (i : ℕ) : List Bool :=
  am.getD (if am.length = 1 then 0 else i) []

/-- Per-head projection parameters (kernels column-major). -/
structure AttnHead where
  wqT : List Vec
  bq : Vec
  wkT : List Vec
  bk : Vec
  wvT : List Vec
  bv : Vec

/-- Parameters of `MultiHeadAttention(num_heads, key_dim)`. -/
structure MHA where
  num_heads : ℕ
  key_dim : ℕ
  heads : List AttnHead
  woT : List Vec
  bo : Vec

/-- Attention weights of one head for the query row `q`: masked softmax
of the scaled scores against the keys. -/
noncomputable def headWeightsRow (kd : ℕ) (q : Vec) (ks : List Vec)
    (mrow : Option (List Bool)) : List ℝ :=
  maskedSoftmax mrow (scoresRow kd q ks)

/-- The attention weights one head assigns for query position `i`:
the projected query row `i` scored against all projected key rows,
under the mask row that the (possibly broadcast) attention mask
provides for query position `i`. -/
noncomputable def headWeightsAt (kd : ℕ) (hd : AttnHead) (qxs kxs : Mat)
    (am : Option (List (List Bool))) (i : ℕ) : List ℝ :=
  headWeightsRow kd ((qxs.map (denseApply hd.wqT hd.bq)).getD i [])
    (kxs.map (denseApply hd.wkT hd.bk)) (am.map (fun a => bcastRow a i))

/-- All output rows of one attention head on one batch element. -/
noncomputable def headRows (kd : ℕ) (h : AttnHead) (qxs kxs vxs : Mat)
    (am : Option (List (List Bool))) : Mat :=
  let vs := vxs.map (denseApply h.wvT h.bv)
  (List.range qxs.length).map (fun i =>
    vecSum kd (List.zipWith smulVec (headWeightsAt kd h qxs kxs am i) vs))

def zipWith3 {α β γ δ : Type} (f : α → β → γ → δ) : List α → List β → List γ → List δ
  | a :: as, b :: bs, c :: cs => f a b c :: zipWith3 f as bs cs
  | _, _, _ => []

/-- Multi-head attention on one batch element: per-head attention,
concatenation of the head outputs, output projection. -/
noncomputable def mhaBatch (p : MHA) (qxs kxs vxs : Mat)
    (am : Option (List (List Bool))) : Mat :=
  let hs := p.heads.map (fun h => headRows p.key_dim h qxs kxs vxs am)
  (List.range qxs.length).map (fun i =>
    denseApply p.woT p.bo ((hs.map (fun hm => hm.getD i [])).flatten))

/-- Multi-head attention on a batch, with an optional per-batch-element
attention mask. -/
noncomputable def mhaForward (p : MHA) (q k v : Tensor3) (em : Option Mask3) : Tensor3 :=
  match em with
  | none => zipWith3 (fun a b c => mhaBatch p a b c none) q k v
  | some ems => zipWith3 (fun a b c => mhaBatch p a b c.1 (some c.2)) q k (v.zip ems)

/-- Parameters of `LayerNormalization` (`epsilon` is a field; Keras
defaults it to `1e-3`). -/
structure LayerNorm where
  gamma : Vec
  beta : Vec
  eps : ℝ

/-- Layer normalization of one row: zero mean, unit variance over the
features, then learned scale and shift. -/
noncomputable def lnRow (ln : LayerNorm) (v : Vec) : Vec :=
  let mu := v.sum / (v.length : ℝ)
  let sig := (v.map (fun t => (t - mu) ^ 2)).sum / (v.length : ℝ)
  List.zipWith (· + ·)
    (List.zipWith (· * ·) ln.gamma (v.map (fun t => (t - mu) / Real.sqrt (sig + ln.eps))))
    ln.beta

noncomputable def lnMat (ln : LayerNorm) (xs : Mat) : Mat := xs.map (lnRow ln)

noncomputable def lnT3 (ln : LayerNorm) (x : Tensor3) : Tensor3 := x.map (lnMat ln)

/-- The `Sequential([Input, Dense(dense_units, "relu"), Dense(embed_dim)])`
sub-model (`self.dense` in the source), kernels column-major. -/
structure SeqDense where
  w1T : List Vec
  b1 : Vec
  w2T : List Vec
  b2 : Vec

/-- Apply the two-stage projection to one row: expand with `relu`,
then contract linearly. -/
noncomputable def ffnRow (s : SeqDense) (v : Vec) : Vec :=
  denseApply s.w2T s.b2 ((denseApply s.w1T s.b1 v).map relu)

noncomputable def ffnMat (s : SeqDense) (xs : Mat) : Mat := xs.map (ffnRow s)

noncomputable def ffnT3 (s : SeqDense) (x : Tensor3) : Tensor3 := x.map (ffnMat s)

/-- Elementwise sum of two batches (a residual addition). -/
def tensorAdd (x y : Tensor3) : Tensor3 :=
  List.zipWith (fun a b => List.zipWith addVec a b) x y

/-- A value of a Keras layer configuration dictionary. -/
inductive ConfigVal where
  | nat (n : ℕ)
  | str (s : String)
  | bool (b : Bool)
deriving DecidableEq

abbrev Config := List (String × ConfigVal)

/-- The base `keras.layers.Layer` attributes carried by `**kwargs`. -/
structure BaseConfig where
  name : String
  trainable : Bool
  dtype : String
deriving DecidableEq

/-- The base layer's `super().get_config()`. -/
def baseGetConfig (b : BaseConfig) : Config :=
  [("name", ConfigVal.str b.name), ("trainable", ConfigVal.bool b.trainable),
   ("dtype", ConfigVal.str b.dtype)]

/-- Python `dict.update`: entries of `kvs` replace entries of `c` with
the same key and are appended otherwise. -/
def Config.update (c kvs : Config) : Config :=
  c.filter (fun kv => (kvs.lookup kv.1).isNone) ++ kvs

def Config.getNat (c : Config) (k : String) : Option ℕ :=
  match c.lookup k with
  | some (ConfigVal.nat n) => some n
  | _ => none

def Config.getStr (c : Config) (k : String) : Option String :=
  match c.lookup k with
  | some (ConfigVal.str s) => some s
  | _ => none

def Config.getBool (c : Config) (k : String) : Option Bool :=
  match c.lookup k with
  | some (ConfigVal.bool b) => some b
  | _ => none

/-- Raw initial values for every learned parameter; the constructor
cuts them to the shapes Keras builds. -/
structure InitWeights where
  wq : ℕ → ℕ → ℕ → ℝ
  bq : ℕ → ℕ → ℝ
  wk : ℕ → ℕ → ℕ → ℝ
  bk : ℕ → ℕ → ℝ
  wv : ℕ → ℕ → ℕ → ℝ
  bv : ℕ → ℕ → ℝ
  wo : ℕ → ℕ → ℝ
  bo : ℕ → ℝ
  w1 : ℕ → ℕ → ℝ
  b1 : ℕ → ℝ
  w2 : ℕ → ℕ → ℝ
  b2 : ℕ → ℝ
  gamma1 : ℕ → ℝ
  beta1 : ℕ → ℝ
  gamma2 : ℕ → ℝ
  beta2 : ℕ → ℝ

/-- The `TransformerEncoder` layer: hyperparameters plus the four
sub-units built by `__init__`. -/
structure TransformerEncoder where
  num_heads : ℕ
  embed_dim : ℕ
  dense_units : ℕ
  attention : MHA
  dense : SeqDense
  first_layer_norm : LayerNorm
  second_layer_norm : LayerNorm
  base : BaseConfig
  supports_masking : Bool

/-- A `rows × cols` kernel stored as its list of columns. -/
def colMatrix (rows cols : ℕ) (w : ℕ → ℕ → ℝ) : List Vec :=
  (List.range cols).map (fun j => (List.range rows).map (fun i => w i j))

def vecOf (n : ℕ) (f : ℕ → ℝ) : Vec := (List.range n).map f

/-- Constructor `TransformerEncoder.__init__` (src/layers/encoder.py lines 47-73):
stores the three hyperparameters, builds
`MultiHeadAttention(num_heads=num_heads, key_dim=embed_dim)` (line 54:
the per-head key dimension is the full `embed_dim`), the
`Sequential` projection `Dense(dense_units, "relu"); Dense(embed_dim)`,
and two independently parameterized `LayerNormalization` units
(Keras default `epsilon = 1e-3`), and sets `supports_masking`. -/
noncomputable def TransformerEncoder.init (num_heads embed_dim dense_units : ℕ)
    (base : BaseConfig) (θ : InitWeights) : TransformerEncoder :=
  { num_heads := num_heads
    embed_dim := embed_dim
    dense_units := dense_units
    attention :=
      { num_heads := num_heads
        key_dim := embed_dim
        heads := (List.range num_heads).map (fun h =>
          { wqT := colMatrix embed_dim embed_dim (fun i j => θ.wq h i j)
            bq := vecOf embed_dim (θ.bq h)
            wkT := colMatrix embed_dim embed_dim (fun i j => θ.wk h i j)
            bk := vecOf embed_dim (θ.bk h)
            wvT := colMatrix embed_dim embed_dim (fun i j => θ.wv h i j)
            bv := vecOf embed_dim (θ.bv h) })
        woT := colMatrix (num_heads * embed_dim) embed_dim θ.wo
        bo := vecOf embed_dim θ.bo }
    dense :=
      { w1T := colMatrix embed_dim dense_units θ.w1
        b1 := vecOf dense_units θ.b1
        w2T := colMatrix dense_units embed_dim θ.w2
        b2 := vecOf embed_dim θ.b2 }
    first_layer_norm :=
      { gamma := vecOf embed_dim θ.gamma1, beta := vecOf embed_dim θ.beta1,
        eps := 1/1000 }
    second_layer_norm :=
      { gamma := vecOf embed_dim θ.gamma2, beta := vecOf embed_dim θ.beta2,
        eps := 1/1000 }
    base := base
    supports_masking := true }

/-- Construction wrapped in `Except`, recording which inputs raise.
Neither `keras.layers.MultiHeadAttention` (which takes the per-head
`key_dim` as an explicit argument and relates it to no other dimension)
nor `Dense`/`LayerNormalization`/`Sequential` performs any validation
of the `(num_heads, embed_dim, dense_units)` combination, so
construction, as delegated by `__init__`, never fails. -/
noncomputable def TransformerEncoder.initChecked (num_heads embed_dim dense_units : ℕ)
    (base : BaseConfig) (θ : InitWeights) : Except String TransformerEncoder :=
  Except.ok (TransformerEncoder.init num_heads embed_dim dense_units base θ)

/-- Mask expansion `mask[:, tf.newaxis, :]` (line 80): a `(B, L)` mask becomes a
`(B, 1, L)` attention mask. -/
def expandMask (m : Mask2) : Mask3 := m.map (fun r => [r])

/-- Forward pass `TransformerEncoder.call` (lines 75-89): expand the mask if given,
self-attention with `query = key = value = inputs`, add & normalize,
dense projection, add & normalize. -/
noncomputable def TransformerEncoder.call (enc : TransformerEncoder)
    (inputs : Tensor3) (mask : Option Mask2) : Tensor3 :=
  let m3 := mask.map expandMask
  let attention_output := mhaForward enc.attention inputs inputs inputs m3
  let proj_input := lnT3 enc.first_layer_norm (tensorAdd inputs attention_output)
  let proj_output := ffnT3 enc.dense proj_input
  lnT3 enc.second_layer_norm (tensorAdd proj_input proj_output)

/-- Configuration export `TransformerEncoder.get_config` (lines 93-104): the base layer's
configuration updated with the three hyperparameters. -/
def TransformerEncoder.get_config (enc : TransformerEncoder) : Config :=
  Config.update (baseGetConfig enc.base)
    [("num_heads", ConfigVal.nat enc.num_heads),
     ("embed_dim", ConfigVal.nat enc.embed_dim),
     ("dense_units", ConfigVal.nat enc.dense_units)]

/-- Keras `Layer.from_config`: `cls(**config)`.  Fails if any of the
three hyperparameter keys is missing. -/
noncomputable def TransformerEncoder.fromConfig (c : Config) (θ : InitWeights) :
    Option TransformerEncoder :=
  match c.getNat "num_heads", c.getNat "embed_dim", c.getNat "dense_units" with
  | some nh, some d, some du =>
      some (TransformerEncoder.init nh d du
        { name := (c.getStr "name").getD "transformer_encoder"
          trainable := (c.getBool "trainable").getD true
          dtype := (c.getStr "dtype").getD "float32" } θ)
  | _, _, _ => none

/-- The method `call` as a state transformer on the instance: the method body
(lines 75-89) reads `self.attention`, `self.first_layer_norm`,
`self.dense`, `self.second_layer_norm` and never assigns to `self`, so
the instance after the call is the instance before it. -/
noncomputable def TransformerEncoder.callWithState (enc : TransformerEncoder)
    (inputs : Tensor3) (mask : Option Mask2) : TransformerEncoder × Tensor3 :=
  (enc, enc.call inputs mask)

/-- Two successive evaluations of `call` on the same input with no
parameter update in between, threading the instance state through. -/
noncomputable def TransformerEncoder.evalTwice (enc : TransformerEncoder)
    (inputs : Tensor3) (mask : Option Mask2) :
    (Tensor3 × Tensor3) × TransformerEncoder :=
  let r1 := enc.callWithState inputs mask
  let r2 := r1.1.callWithState inputs mask
  ((r1.2, r2.2), r2.1)

/-- Process-wide framework state visible to this module. -/
structure FrameworkState where
  randomSeed : ℕ
deriving DecidableEq

/-- Importing `src/layers/encoder.py` executes
`tf.keras.utils.set_random_seed(42)` (line 12) at module top level,
before any class body below it can be instantiated. -/
def importEncoderModule (s : FrameworkState) : FrameworkState :=
  { s with randomSeed := 42 }

/-- Shape predicate: `x` is a `(B, L, d)` batch: `B` sequences, each of `L` rows, each
row with `d` features. -/
def HasShape3 (x : Tensor3) (B L d : ℕ) : Prop :=
  x.length = B ∧ ∀ b < B, (x.getD b []).length = L ∧
    ∀ i < L, ((x.getD b []).getD i []).length = d

instance (x : Tensor3) (B L d : ℕ) : Decidable (HasShape3 x B L d) := by
  unfold HasShape3; infer_instance

/-- All-zero weights, unit layer-norm scales: a concrete parameter
assignment used for concrete evaluations. -/
def θ0 : InitWeights :=
  { wq := fun _ _ _ => 0, bq := fun _ _ => 0
    wk := fun _ _ _ => 0, bk := fun _ _ => 0
    wv := fun _ _ _ => 0, bv := fun _ _ => 0
    wo := fun _ _ => 0, bo := fun _ => 0
    w1 := fun _ _ => 0, b1 := fun _ => 0
    w2 := fun _ _ => 0, b2 := fun _ => 0
    gamma1 := fun _ => 1, beta1 := fun _ => 0
    gamma2 := fun _ => 1, beta2 := fun _ => 0 }

/-- A concrete base-layer configuration. -/
def baseCE : BaseConfig :=
  { name := "transformer_encoder", trainable := true, dtype := "float32" }

/-- The forward pass restricted to one batch element carrying a 2-D mask row
(what `call` computes per batch element once the `(B, 1, L)` expanded
mask is zipped with the batch). -/
noncomputable def callBatch (enc : TransformerEncoder) (xs : Mat) (mrow : List Bool) : Mat :=
  let a := mhaBatch enc.attention xs xs xs (some [mrow])
  let p := lnMat enc.first_layer_norm (List.zipWith addVec xs a)
  lnMat enc.second_layer_norm (List.zipWith addVec p (ffnMat enc.dense p))

/-- The forward pass restricted to one batch element, no mask. -/
noncomputable def callBatchNone (enc : TransformerEncoder) (xs : Mat) : Mat :=
  let a := mhaBatch enc.attention xs xs xs none
  let p := lnMat enc.first_layer_norm (List.zipWith addVec xs a)
  lnMat enc.second_layer_norm (List.zipWith addVec p (ffnMat enc.dense p))

/-- A tiny concrete block: one head, `embed_dim = 2`, hidden width 1,
all weights zero, unit normalization scales. -/
noncomputable def encCE : TransformerEncoder := TransformerEncoder.init 1 2 1 baseCE θ0

/-- Concrete input: one batch element, two positions, two features,
all zero. -/
def xCE : Tensor3 := [[[0, 0], [0, 0]]]

/-- Same as `xCE` except at position 1 — the masked position. -/
def xCE2 : Tensor3 := [[[0, 0], [1, -1]]]

/-- Mask marking position 1 of the single batch element invalid. -/
def mCE : Mask2 := [[true, false]]

lemma getD_of_length_le {α : Type} (l : List α) (d : α) {i : ℕ} (h : l.length ≤ i) :
    l.getD i d = d := by
  simp [List.getD_eq_getElem?_getD, List.getElem?_eq_none h]

lemma getD_map {α β : Type} (f : α → β) (l : List α) (i : ℕ) (d1 : β) (d0 : α)
    (h : i < l.length) : (l.map f).getD i d1 = f (l.getD i d0) := by
  rw [List.getD_eq_getElem _ _ (by simpa using h), List.getElem_map,
    List.getD_eq_getElem _ _ h]

lemma getD_zipWith {α β γ : Type} (f : α → β → γ) (as : List α) (bs : List β)
    (i : ℕ) (dc : γ) (da : α) (db : β) (h1 : i < as.length) (h2 : i < bs.length) :
    (List.zipWith f as bs).getD i dc = f (as.getD i da) (bs.getD i db) := by
  rw [List.getD_eq_getElem _ _ (by simp [List.length_zipWith]; omega),
    List.getElem_zipWith, List.getD_eq_getElem _ _ h1, List.getD_eq_getElem _ _ h2]

lemma getD_rangeMap {β : Type} (f : ℕ → β) (n i : ℕ) (d : β) (h : i < n) :
    ((List.range n).map f).getD i d = f i := by
  rw [getD_map f _ i d 0 (by simpa using h), List.getD_eq_getElem _ _ (by simpa using h),
    List.getElem_range]

lemma getD_replicate_same {α : Type} (n i : ℕ) (a : α) :
    (List.replicate n a).getD i a = a := by
  by_cases h : i < n
  · rw [List.getD_eq_getElem _ _ (by simpa using h)]
    simp
  · exact getD_of_length_le _ _ (by simpa using Nat.le_of_not_lt h)

lemma zipWith3_self {α β : Type} (f : α → α → α → β) (as : List α) :
    zipWith3 f as as as = as.map (fun a => f a a a) := by
  induction as with
  | nil => rfl
  | cons a as ih => simp [zipWith3, ih]

lemma zipWith3_self_zip {α γ β : Type} (f : α → α → α × γ → β) (as : List α)
    (cs : List γ) :
    zipWith3 f as as (as.zip cs) = List.zipWith (fun a c => f a a (a, c)) as cs := by
  induction as generalizing cs with
  | nil => rfl
  | cons a as ih =>
      cases cs with
      | nil => rfl
      | cons c cs => exact congrArg (List.cons (f a a (a, c))) (ih cs)

lemma zipWith_replicate_left {α β γ : Type} (f : α → β → γ) (a : α) (bs : List β) :
    List.zipWith f (List.replicate bs.length a) bs = bs.map (f a) := by
  induction bs with
  | nil => rfl
  | cons b bs ih => simp [List.replicate_succ, ih]

lemma zipWith_replicate_right {α β γ : Type} (f : α → β → γ) (b : β) (as : List α) :
    List.zipWith f as (List.replicate as.length b) = as.map (fun a => f a b) := by
  induction as with
  | nil => rfl
  | cons a as ih => simp [List.replicate_succ, ih]

@[simp] lemma length_vecSum (n : ℕ) (l : List Vec) : (vecSum n l).length = n := by
  simp [vecSum]

@[simp] lemma length_denseApply (wT : List Vec) (b x : Vec) :
    (denseApply wT b x).length = min wT.length b.length := by
  simp [denseApply]

@[simp] lemma length_addVec (u v : Vec) : (addVec u v).length = min u.length v.length := by
  simp [addVec]

@[simp] lemma length_lnRow (ln : LayerNorm) (v : Vec) :
    (lnRow ln v).length = min (min ln.gamma.length v.length) ln.beta.length := by
  simp [lnRow]

@[simp] lemma length_ffnRow (s : SeqDense) (v : Vec) :
    (ffnRow s v).length = min s.w2T.length s.b2.length := by
  simp [ffnRow]

@[simp] lemma length_headRows (kd : ℕ) (hd : AttnHead) (q k v : Mat)
    (am : Option (List (List Bool))) : (headRows kd hd q k v am).length = q.length := by
  simp [headRows]

@[simp] lemma length_mhaBatch (p : MHA) (q k v : Mat) (am : Option (List (List Bool))) :
    (mhaBatch p q k v am).length = q.length := by
  simp [mhaBatch]

@[simp] lemma length_lnMat (ln : LayerNorm) (xs : Mat) : (lnMat ln xs).length = xs.length := by
  simp [lnMat]

@[simp] lemma length_ffnMat (s : SeqDense) (xs : Mat) : (ffnMat s xs).length = xs.length := by
  simp [ffnMat]

@[simp] lemma length_lnT3 (ln : LayerNorm) (x : Tensor3) : (lnT3 ln x).length = x.length := by
  simp [lnT3]

@[simp] lemma length_ffnT3 (s : SeqDense) (x : Tensor3) : (ffnT3 s x).length = x.length := by
  simp [ffnT3]

@[simp] lemma length_tensorAdd (x y : Tensor3) :
    (tensorAdd x y).length = min x.length y.length := by
  simp [tensorAdd]

@[simp] lemma length_scoresRow (kd : ℕ) (q : Vec) (ks : List Vec) :
    (scoresRow kd q ks).length = ks.length := by
  simp [scoresRow]

lemma bcastRow_single (r : List Bool) (i : ℕ) : bcastRow [r] i = r := by
  simp [bcastRow]

lemma dot_zeros (v : Vec) (n : ℕ) : dot v (List.replicate n (0:ℝ)) = 0 := by
  induction v generalizing n with
  | nil => simp [dot]
  | cons a v ih =>
      cases n with
      | zero => simp [dot]
      | succ n => simpa [dot, List.replicate_succ] using ih n

lemma smulVec_zero (v : Vec) : smulVec 0 v = List.replicate v.length 0 := by
  simp [smulVec, List.map_const']

lemma denseApply_zeroKernel (mm nn : ℕ) (v : Vec) :
    denseApply (List.replicate mm (List.replicate nn (0:ℝ))) (List.replicate mm 0) v =
      List.replicate mm (0:ℝ) := by
  simp only [denseApply, List.map_replicate, dot_zeros]
  have h2 := zipWith_replicate_left (γ := ℝ) (· + ·) 0 (List.replicate mm (0:ℝ))
  simp only [List.length_replicate] at h2
  simp [h2, List.map_replicate]

lemma pipeline_getD (n1 n2 : LayerNorm) (s : SeqDense) (x A : Tensor3) (b : ℕ)
    (hb : b < x.length) (hbA : b < A.length) :
    (lnT3 n2 (tensorAdd (lnT3 n1 (tensorAdd x A))
        (ffnT3 s (lnT3 n1 (tensorAdd x A))))).getD b []
      = lnMat n2 (List.zipWith addVec
          (lnMat n1 (List.zipWith addVec (x.getD b []) (A.getD b [])))
          (ffnMat s (lnMat n1 (List.zipWith addVec (x.getD b []) (A.getD b []))))) := by
  simp only [lnT3, ffnT3, tensorAdd]
  rw [getD_map (lnMat n2) _ b [] []
      (by simp [List.length_zipWith]; omega),
    getD_zipWith _ _ _ b [] [] []
      (by simp [List.length_zipWith]; omega)
      (by simp [List.length_zipWith]; omega),
    getD_map (ffnMat s) _ b [] []
      (by simp [List.length_zipWith]; omega),
    getD_map (lnMat n1) _ b [] []
      (by simp [List.length_zipWith]; omega),
    getD_zipWith _ x A b [] [] [] hb hbA]

lemma call_none_getD (enc : TransformerEncoder) (x : Tensor3) (b : ℕ)
    (hb : b < x.length) :
    (enc.call x none).getD b [] = callBatchNone enc (x.getD b []) := by
  have hA : mhaForward enc.attention x x x none
      = x.map (fun xs => mhaBatch enc.attention xs xs xs none) := by
    simp only [mhaForward]
    exact zipWith3_self _ x
  have step : (enc.call x none).getD b []
      = lnMat enc.second_layer_norm (List.zipWith addVec
          (lnMat enc.first_layer_norm (List.zipWith addVec (x.getD b [])
            ((mhaForward enc.attention x x x none).getD b [])))
          (ffnMat enc.dense (lnMat enc.first_layer_norm
            (List.zipWith addVec (x.getD b [])
              ((mhaForward enc.attention x x x none).getD b []))))) :=
    pipeline_getD _ _ _ x _ b hb
      (by show b < (mhaForward enc.attention x x x none).length
          rw [hA]; simpa using hb)
  rw [step, hA, getD_map _ x b [] [] hb]
  rfl

lemma call_some_getD (enc : TransformerEncoder) (x : Tensor3) (m : Mask2) (b : ℕ)
    (hb : b < x.length) (hbm : b < m.length) :
    (enc.call x (some m)).getD b [] = callBatch enc (x.getD b []) (m.getD b []) := by
  have hA : mhaForward enc.attention x x x (some (expandMask m))
      = List.zipWith (fun xs em => mhaBatch enc.attention xs xs xs (some em))
          x (expandMask m) := by
    simp only [mhaForward]
    exact zipWith3_self_zip _ x (expandMask m)
  have hlenem : (expandMask m).length = m.length := by simp [expandMask]
  have step : (enc.call x (some m)).getD b []
      = lnMat enc.second_layer_norm (List.zipWith addVec
          (lnMat enc.first_layer_norm (List.zipWith addVec (x.getD b [])
            ((mhaForward enc.attention x x x (some (expandMask m))).getD b [])))
          (ffnMat enc.dense (lnMat enc.first_layer_norm
            (List.zipWith addVec (x.getD b [])
              ((mhaForward enc.attention x x x (some (expandMask m))).getD b []))))) :=
    pipeline_getD _ _ _ x _ b hb
      (by show b < (mhaForward enc.attention x x x (some (expandMask m))).length
          rw [hA]; simp only [List.length_zipWith, hlenem]; omega)
  rw [step, hA, getD_zipWith _ x (expandMask m) b [] [] [] hb (by rw [hlenem]; exact hbm),
    show (expandMask m).getD b [] = [m.getD b []] from by
      simp only [expandMask]; exact getD_map _ m b [] [] hbm]
  rfl

lemma pipelineMat_getD (n1 n2 : LayerNorm) (s : SeqDense) (xs a : Mat) (i : ℕ)
    (hi : i < xs.length) (hia : i < a.length) :
    (lnMat n2 (List.zipWith addVec (lnMat n1 (List.zipWith addVec xs a))
        (ffnMat s (lnMat n1 (List.zipWith addVec xs a))))).getD i []
      = lnRow n2 (addVec
          (lnRow n1 (addVec (xs.getD i []) (a.getD i [])))
          (ffnRow s (lnRow n1 (addVec (xs.getD i []) (a.getD i []))))) := by
  simp only [lnMat, ffnMat]
  rw [getD_map (lnRow n2) _ i [] []
      (by simp [List.length_zipWith]; omega),
    getD_zipWith addVec _ _ i [] [] []
      (by simp [List.length_zipWith]; omega)
      (by simp [List.length_zipWith]; omega),
    getD_map (ffnRow s) _ i [] []
      (by simp [List.length_zipWith]; omega),
    getD_map (lnRow n1) _ i [] []
      (by simp [List.length_zipWith]; omega),
    getD_zipWith addVec xs a i [] [] [] hi hia]

lemma callBatch_getD (enc : TransformerEncoder) (xs : Mat) (mrow : List Bool) (i : ℕ)
    (hi : i < xs.length) :
    (callBatch enc xs mrow).getD i []
      = lnRow enc.second_layer_norm (addVec
          (lnRow enc.first_layer_norm (addVec (xs.getD i [])
            ((mhaBatch enc.attention xs xs xs (some [mrow])).getD i [])))
          (ffnRow enc.dense (lnRow enc.first_layer_norm (addVec (xs.getD i [])
            ((mhaBatch enc.attention xs xs xs (some [mrow])).getD i []))))) :=
  pipelineMat_getD _ _ _ xs _ i hi (by simpa using hi)

lemma callBatchNone_getD (enc : TransformerEncoder) (xs : Mat) (i : ℕ)
    (hi : i < xs.length) :
    (callBatchNone enc xs).getD i []
      = lnRow enc.second_layer_norm (addVec
          (lnRow enc.first_layer_norm (addVec (xs.getD i [])
            ((mhaBatch enc.attention xs xs xs none).getD i [])))
          (ffnRow enc.dense (lnRow enc.first_layer_norm (addVec (xs.getD i [])
            ((mhaBatch enc.attention xs xs xs none).getD i []))))) :=
  pipelineMat_getD _ _ _ xs _ i hi (by simpa using hi)

lemma headRows_getD (kd : ℕ) (hd : AttnHead) (qxs kxs vxs : Mat)
    (am : Option (List (List Bool))) (i : ℕ) (hi : i < qxs.length) :
    (headRows kd hd qxs kxs vxs am).getD i []
      = vecSum kd (List.zipWith smulVec (headWeightsAt kd hd qxs kxs am i)
          (vxs.map (denseApply hd.wvT hd.bv))) := by
  simp only [headRows]
  exact getD_rangeMap _ _ _ _ hi

lemma mhaBatch_getD (p : MHA) (qxs kxs vxs : Mat) (am : Option (List (List Bool)))
    (i : ℕ) (hi : i < qxs.length) :
    (mhaBatch p qxs kxs vxs am).getD i []
      = denseApply p.woT p.bo
          (((p.heads.map (fun hd => headRows p.key_dim hd qxs kxs vxs am)).map
            (fun hm => hm.getD i [])).flatten) := by
  simp only [mhaBatch]
  exact getD_rangeMap _ _ _ _ hi

/-- C1: `call` computes self-attention with `query = key = value = x`
and the expanded mask, adds it to the input and normalizes with the
first normalization unit, applies the two-stage projection (expand to
`dense_units` features with relu, contract back to `embed_dim` with no
activation), adds the projection output to the normalized attention
output and normalizes with the independently parameterized second
normalization unit. -/
theorem call_is_attention_addnorm_ffn_addnorm (nh d du : ℕ) (base : BaseConfig)
    (θ : InitWeights) (x : Tensor3) (m : Option Mask2) :
    let enc := TransformerEncoder.init nh d du base θ
    let a := mhaForward enc.attention x x x (m.map expandMask)
    let p := lnT3 enc.first_layer_norm (tensorAdd x a)
    enc.call x m = lnT3 enc.second_layer_norm (tensorAdd p (ffnT3 enc.dense p)) ∧
    (∀ v : Vec, ffnRow enc.dense v =
      denseApply enc.dense.w2T enc.dense.b2
        ((denseApply enc.dense.w1T enc.dense.b1 v).map relu)) ∧
    enc.dense.w1T.length = du ∧
    (∀ col ∈ enc.dense.w1T, col.length = d) ∧
    enc.dense.w2T.length = d ∧
    (∀ col ∈ enc.dense.w2T, col.length = du) ∧
    enc.dense.b2.length = d ∧
    enc.first_layer_norm =
      { gamma := vecOf d θ.gamma1, beta := vecOf d θ.beta1, eps := 1/1000 } ∧
    enc.second_layer_norm =
      { gamma := vecOf d θ.gamma2, beta := vecOf d θ.beta2, eps := 1/1000 } := by
  refine ⟨rfl, fun v => rfl, ?_, ?_, ?_, ?_, ?_, rfl, rfl⟩
  · simp [TransformerEncoder.init, colMatrix]
  · intro col hcol
    simp only [TransformerEncoder.init, colMatrix, List.mem_map] at hcol
    obtain ⟨j, _, rfl⟩ := hcol
    simp
  · simp [TransformerEncoder.init, colMatrix]
  · intro col hcol
    simp only [TransformerEncoder.init, colMatrix, List.mem_map] at hcol
    obtain ⟨j, _, rfl⟩ := hcol
    simp
  · simp [TransformerEncoder.init, vecOf]

lemma callBatchNone_row_shape (nh d du : ℕ) (base : BaseConfig) (θ : InitWeights)
    (xs : Mat) (L : ℕ) (hL : xs.length = L)
    (hrow : ∀ i < L, (xs.getD i []).length = d) :
    (callBatchNone (TransformerEncoder.init nh d du base θ) xs).length = L ∧
    ∀ i < L, ((callBatchNone (TransformerEncoder.init nh d du base θ) xs).getD i []).length = d := by
  constructor
  · simp [callBatchNone, hL]
  · intro i hi
    have hix : i < xs.length := by omega
    rw [callBatchNone_getD _ _ i hix]
    have h1 : (((mhaBatch (TransformerEncoder.init nh d du base θ).attention
        xs xs xs none).getD i []).length) = d := by
      rw [mhaBatch_getD _ _ _ _ _ i hix]
      simp [TransformerEncoder.init, colMatrix, vecOf]
    have h1n : ((mhaBatch (TransformerEncoder.init nh d du base θ).attention
        xs xs xs none)[i]?.getD []).length = d := by simpa using h1
    have hxin : (xs[i]?.getD []).length = d := by simpa using hrow i hi
    have hg1 : (TransformerEncoder.init nh d du base θ).first_layer_norm.gamma.length = d := by
      simp [TransformerEncoder.init, vecOf]
    have hbe1 : (TransformerEncoder.init nh d du base θ).first_layer_norm.beta.length = d := by
      simp [TransformerEncoder.init, vecOf]
    have hg2 : (TransformerEncoder.init nh d du base θ).second_layer_norm.gamma.length = d := by
      simp [TransformerEncoder.init, vecOf]
    have hbe2 : (TransformerEncoder.init nh d du base θ).second_layer_norm.beta.length = d := by
      simp [TransformerEncoder.init, vecOf]
    have hw2 : (TransformerEncoder.init nh d du base θ).dense.w2T.length = d := by
      simp [TransformerEncoder.init, colMatrix]
    have hbb2 : (TransformerEncoder.init nh d du base θ).dense.b2.length = d := by
      simp [TransformerEncoder.init, vecOf]
    simp [h1n, hxin, hg1, hbe1, hg2, hbe2, hw2, hbb2]

/-- C2: for any head count dividing the embedding dimensionality and
any positive hidden width, evaluating the constructed block on a
`(B, L, d)` batch with no mask produces a `(B, L, d)` batch. -/
theorem call_preserves_shape (nh d du B L : ℕ) (hdvd : nh ∣ d) (hnh : 0 < nh)
    (hdu : 0 < du) (base : BaseConfig) (θ : InitWeights) (x : Tensor3)
    (hx : HasShape3 x B L d) :
    HasShape3 ((TransformerEncoder.init nh d du base θ).call x none) B L d := by
  obtain ⟨hB, hbatch⟩ := hx
  have hmap : mhaForward (TransformerEncoder.init nh d du base θ).attention x x x none
      = x.map (fun xs => mhaBatch (TransformerEncoder.init nh d du base θ).attention
          xs xs xs none) := by
    simp only [mhaForward]
    exact zipWith3_self _ x
  have hlen : ((TransformerEncoder.init nh d du base θ).call x none).length = B := by
    show (lnT3 _ (tensorAdd _ _)).length = B
    simp [TransformerEncoder.call, hmap, hB]
  refine ⟨hlen, ?_⟩
  intro b hb
  have hbx : b < x.length := by omega
  rw [call_none_getD _ _ _ hbx]
  obtain ⟨hL, hrow⟩ := hbatch b hb
  exact callBatchNone_row_shape nh d du base θ (x.getD b []) L hL hrow

/-- Witness for C2 at `num_heads = 2`, `embed_dim = 2`,
`dense_units = 3`, on a `(1, 2, 2)` zero batch. -/
theorem call_preserves_shape_witness :
    (2 ∣ 2) ∧ 0 < 2 ∧ 0 < 3 ∧ HasShape3 xCE 1 2 2 ∧
    HasShape3 ((TransformerEncoder.init 2 2 3 baseCE θ0).call xCE none) 1 2 2 :=
  ⟨by decide, by decide, by decide, by decide,
    call_preserves_shape 2 2 3 1 2 (by decide) (by decide) (by decide) baseCE θ0 xCE
      (by decide)⟩

lemma maskedSoftmax_allTrue (ss : List ℝ) (n : ℕ) (hn : n = ss.length) :
    maskedSoftmax (some (List.replicate n true)) ss = maskedSoftmax none ss := by
  subst hn
  simp only [maskedSoftmax]
  rw [zipWith_replicate_left, zipWith_replicate_left]
  simp

lemma headWeightsAt_allTrue (kd : ℕ) (hd : AttnHead) (qxs kxs : Mat) (i n : ℕ)
    (hn : n = kxs.length) :
    headWeightsAt kd hd qxs kxs (some [List.replicate n true]) i
      = headWeightsAt kd hd qxs kxs none i := by
  simp only [headWeightsAt, headWeightsRow, Option.map_some', Option.map_none',
    bcastRow_single]
  exact maskedSoftmax_allTrue _ _ (by simp [hn])

lemma headRows_allTrue (kd : ℕ) (hd : AttnHead) (xs : Mat) (n : ℕ)
    (hn : n = xs.length) :
    headRows kd hd xs xs xs (some [List.replicate n true])
      = headRows kd hd xs xs xs none := by
  simp only [headRows]
  apply List.map_congr_left
  intro i _
  rw [headWeightsAt_allTrue kd hd xs xs i n hn]

lemma mhaBatch_allTrue (p : MHA) (xs : Mat) (n : ℕ) (hn : n = xs.length) :
    mhaBatch p xs xs xs (some [List.replicate n true]) = mhaBatch p xs xs xs none := by
  simp only [mhaBatch]
  have hhs : p.heads.map (fun hd => headRows p.key_dim hd xs xs xs
      (some [List.replicate n true]))
      = p.heads.map (fun hd => headRows p.key_dim hd xs xs xs none) :=
    List.map_congr_left (fun hd _ => headRows_allTrue p.key_dim hd xs n hn)
  rw [hhs]

/-- C6: on a `(B, L, d)` batch, a mask of shape `(B, L)` that is all
`true` produces exactly the output produced with no mask. -/
theorem allTrue_mask_equals_none (enc : TransformerEncoder) (x : Tensor3) (B L d : ℕ)
    (hx : HasShape3 x B L d) :
    enc.call x (some (List.replicate B (List.replicate L true))) = enc.call x none := by
  obtain ⟨hB, hbatch⟩ := hx
  have hattn : mhaForward enc.attention x x x
      (some (expandMask (List.replicate B (List.replicate L true))))
      = mhaForward enc.attention x x x none := by
    simp only [mhaForward, expandMask, List.map_replicate]
    rw [zipWith3_self_zip, zipWith3_self, ← hB, zipWith_replicate_right]
    apply List.map_congr_left
    intro xs hxs
    have hlen : xs.length = L := by
      obtain ⟨b, hb, rfl⟩ := List.mem_iff_getElem.mp hxs
      have hb2 := (hbatch b (by omega)).1
      rwa [List.getD_eq_getElem _ _ hb] at hb2
    exact mhaBatch_allTrue enc.attention xs L hlen.symm
  simp only [TransformerEncoder.call, Option.map_some', Option.map_none', hattn]

/-- Witness for C6 on a `(1, 2, 2)` zero batch. -/
theorem allTrue_mask_equals_none_witness :
    HasShape3 xCE 1 2 2 ∧
    encCE.call xCE (some (List.replicate 1 (List.replicate 2 true)))
      = encCE.call xCE none :=
  ⟨by decide, allTrue_mask_equals_none encCE xCE 1 2 2 (by decide)⟩

lemma maskedSoftmax_some_getD_false (mrow : List Bool) (ss : List ℝ) (j : ℕ)
    (hj : mrow.getD j true = false) :
    (maskedSoftmax (some mrow) ss).getD j 0 = 0 := by
  simp only [maskedSoftmax]
  by_cases hlt : j < min mrow.length ss.length
  · rw [getD_zipWith _ mrow ss j 0 true 0 (by omega) (by omega), hj]
    simp
  · exact getD_of_length_le _ _ (by simp [List.length_zipWith]; omega)

/-- C3: a 2-D mask is expanded by inserting one axis
(`mask[:, tf.newaxis, :]`), so the same key mask applies at every query
position and for every head; every query position — including padded
ones, on which no restriction is placed — assigns weight `0` to every
key position marked invalid. -/
theorem mask_forbids_invalid_keys_for_all_queries (enc : TransformerEncoder)
    (x : Tensor3) (m : Mask2) (b j : ℕ)
    (hj : (m.getD b []).getD j true = false) :
    (∀ i : ℕ, bcastRow ((expandMask m).getD b []) i = m.getD b []) ∧
    ∀ hd ∈ enc.attention.heads, ∀ i : ℕ,
      (headWeightsAt enc.attention.key_dim hd (x.getD b []) (x.getD b [])
        (some ((expandMask m).getD b [])) i).getD j 0 = 0 := by
  have hb : b < m.length := by
    by_contra hc
    rw [getD_of_length_le m [] (Nat.le_of_not_lt hc)] at hj
    simp at hj
  have hexp : (expandMask m).getD b [] = [m.getD b []] := by
    simp only [expandMask]
    exact getD_map _ m b [] [] hb
  constructor
  · intro i
    rw [hexp, bcastRow_single]
  · intro hd _ i
    simp only [headWeightsAt, headWeightsRow, hexp, Option.map_some', bcastRow_single]
    exact maskedSoftmax_some_getD_false _ _ j hj

/-- Witness for C3: the concrete block, the concrete input whose
position 1 is masked, both query positions 0 and 1. -/
theorem mask_forbids_invalid_keys_witness :
    ((mCE.getD 0 []).getD 1 true = false) ∧
    (∀ i : ℕ, bcastRow ((expandMask mCE).getD 0 []) i = mCE.getD 0 []) ∧
    ∀ hd ∈ encCE.attention.heads, ∀ i : ℕ,
      (headWeightsAt encCE.attention.key_dim hd (xCE2.getD 0 []) (xCE2.getD 0 [])
        (some ((expandMask mCE).getD 0 [])) i).getD 1 0 = 0 :=
  ⟨by decide,
    (mask_forbids_invalid_keys_for_all_queries encCE xCE2 mCE 0 1 (by decide)).1,
    (mask_forbids_invalid_keys_for_all_queries encCE xCE2 mCE 0 1 (by decide)).2⟩

lemma zipWith_ite_congr (F : ℝ → ℝ) (mrow : List Bool) (ss ss2 : List ℝ)
    (hl : ss.length = ss2.length)
    (hp : ∀ k, k < ss.length → mrow.getD k true = true → ss.getD k 0 = ss2.getD k 0) :
    List.zipWith (fun b s => if b then F s else (0:ℝ)) mrow ss
      = List.zipWith (fun b s => if b then F s else (0:ℝ)) mrow ss2 := by
  apply List.ext_getElem (by simp [List.length_zipWith, hl])
  intro k h1 h2
  have hk1 : k < mrow.length := by simp [List.length_zipWith] at h1; omega
  have hk2 : k < ss.length := by simp [List.length_zipWith] at h1; omega
  have hk3 : k < ss2.length := by omega
  rw [List.getElem_zipWith, List.getElem_zipWith]
  by_cases hmk : mrow[k] = true
  · have hgd : mrow.getD k true = true := by rw [List.getD_eq_getElem _ _ hk1, hmk]
    have hss := hp k hk2 hgd
    rw [List.getD_eq_getElem _ _ hk2, List.getD_eq_getElem _ _ hk3] at hss
    rw [hmk, hss]
  · have hmk2 : mrow[k] = false := by simpa using hmk
    rw [hmk2]
    simp

lemma maskedSoftmax_some_congr (mrow : List Bool) (ss ss2 : List ℝ)
    (hl : ss.length = ss2.length)
    (hp : ∀ k, k < ss.length → mrow.getD k true = true → ss.getD k 0 = ss2.getD k 0) :
    maskedSoftmax (some mrow) ss = maskedSoftmax (some mrow) ss2 := by
  simp only [maskedSoftmax]
  rw [zipWith_ite_congr Real.exp mrow ss ss2 hl hp]
  exact zipWith_ite_congr _ mrow ss ss2 hl hp

lemma weighted_rows_congr (n : ℕ) (W : List ℝ) (V V2 : List Vec)
    (hl : V.length = V2.length)
    (hW0 : ∀ k, k < V.length → W.getD k 0 = 0 ∨ V.getD k [] = V2.getD k []) :
    vecSum n (List.zipWith smulVec W V) = vecSum n (List.zipWith smulVec W V2) := by
  simp only [vecSum]
  apply List.map_congr_left
  intro j _
  congr 1
  apply List.ext_getElem (by simp [List.length_zipWith, hl])
  intro k h1 h2
  have hkW : k < W.length := by simp [List.length_zipWith] at h1; omega
  have hkV : k < V.length := by simp [List.length_zipWith] at h1; omega
  have hkV2 : k < V2.length := by omega
  rw [List.getElem_map, List.getElem_map, List.getElem_zipWith, List.getElem_zipWith]
  rcases hW0 k hkV with h0 | heq
  · rw [List.getD_eq_getElem _ _ hkW] at h0
    rw [h0, smulVec_zero, smulVec_zero, getD_replicate_same, getD_replicate_same]
  · rw [List.getD_eq_getElem _ _ hkV, List.getD_eq_getElem _ _ hkV2] at heq
    rw [heq]

lemma headRows_agree (kd : ℕ) (hd : AttnHead) (xs xs2 : Mat) (mrow : List Bool)
    (hl : xs.length = xs2.length)
    (hag : ∀ k, k < xs.length → mrow.getD k true = true → xs.getD k [] = xs2.getD k [])
    (i : ℕ) (hi : i < xs.length) (hmi : mrow.getD i true = true) :
    (headRows kd hd xs xs xs (some [mrow])).getD i []
      = (headRows kd hd xs2 xs2 xs2 (some [mrow])).getD i [] := by
  rw [headRows_getD _ _ _ _ _ _ i hi, headRows_getD _ _ _ _ _ _ i (by omega)]
  have hq : (xs.map (denseApply hd.wqT hd.bq)).getD i []
      = (xs2.map (denseApply hd.wqT hd.bq)).getD i [] := by
    rw [getD_map _ _ i [] [] hi, getD_map _ _ i [] [] (by omega), hag i hi hmi]
  have hW : headWeightsAt kd hd xs xs (some [mrow]) i
      = headWeightsAt kd hd xs2 xs2 (some [mrow]) i := by
    simp only [headWeightsAt, headWeightsRow, Option.map_some', bcastRow_single, hq]
    apply maskedSoftmax_some_congr
    · simp [hl]
    · intro k hk hmk
      have hkx : k < xs.length := by simpa using hk
      simp only [scoresRow]
      rw [getD_map _ _ k 0 [] (by simpa using hkx),
        getD_map _ _ k 0 [] (by simp; omega),
        getD_map _ xs k [] [] hkx,
        getD_map _ xs2 k [] [] (by omega), hag k hkx hmk]
  rw [hW]
  apply weighted_rows_congr
  · simp [hl]
  · intro k hkV
    have hkx : k < xs.length := by simpa using hkV
    by_cases hmk : mrow.getD k true = true
    · right
      rw [getD_map _ xs k [] [] hkx,
        getD_map _ xs2 k [] [] (by omega), hag k hkx hmk]
    · left
      have hfalse : mrow.getD k true = false := by
        cases h2 : mrow.getD k true
        · rfl
        · exact absurd h2 hmk
      simp only [headWeightsAt, headWeightsRow, Option.map_some', bcastRow_single]
      exact maskedSoftmax_some_getD_false _ _ k hfalse

lemma mhaBatch_agree (p : MHA) (xs xs2 : Mat) (mrow : List Bool)
    (hl : xs.length = xs2.length)
    (hag : ∀ k, k < xs.length → mrow.getD k true = true → xs.getD k [] = xs2.getD k [])
    (i : ℕ) (hi : i < xs.length) (hmi : mrow.getD i true = true) :
    (mhaBatch p xs xs xs (some [mrow])).getD i []
      = (mhaBatch p xs2 xs2 xs2 (some [mrow])).getD i [] := by
  rw [mhaBatch_getD _ _ _ _ _ i hi, mhaBatch_getD _ _ _ _ _ i (by omega)]
  congr 2
  rw [List.map_map, List.map_map]
  apply List.map_congr_left
  intro hd _
  exact headRows_agree p.key_dim hd xs xs2 mrow hl hag i hi hmi

lemma callBatch_agree (enc : TransformerEncoder) (xs xs2 : Mat) (mrow : List Bool)
    (hl : xs.length = xs2.length)
    (hag : ∀ k, k < xs.length → mrow.getD k true = true → xs.getD k [] = xs2.getD k [])
    (i : ℕ) (hmi : mrow.getD i true = true) :
    (callBatch enc xs mrow).getD i [] = (callBatch enc xs2 mrow).getD i [] := by
  by_cases hi : i < xs.length
  · rw [callBatch_getD _ _ _ i hi, callBatch_getD _ _ _ i (by omega),
      hag i hi hmi, mhaBatch_agree enc.attention xs xs2 mrow hl hag i hi hmi]
  · have hlen1 : (callBatch enc xs mrow).length = xs.length := by simp [callBatch]
    have hlen2 : (callBatch enc xs2 mrow).length = xs2.length := by simp [callBatch]
    rw [getD_of_length_le _ [] (by omega), getD_of_length_le _ [] (by omega)]

lemma length_call_some (enc : TransformerEncoder) (x : Tensor3) (m : Mask2) :
    (enc.call x (some m)).length = min x.length m.length := by
  have hmap : mhaForward enc.attention x x x (some (expandMask m))
      = List.zipWith (fun xs em => mhaBatch enc.attention xs xs xs (some em))
          x (expandMask m) := by
    simp only [mhaForward]
    exact zipWith3_self_zip _ x (expandMask m)
  show (lnT3 enc.second_layer_norm (tensorAdd
      (lnT3 enc.first_layer_norm (tensorAdd x
        (mhaForward enc.attention x x x (some (expandMask m)))))
      (ffnT3 enc.dense (lnT3 enc.first_layer_norm (tensorAdd x
        (mhaForward enc.attention x x x (some (expandMask m)))))))).length = _
  simp only [length_lnT3, length_tensorAdd, length_ffnT3]
  rw [hmap, List.length_zipWith]
  simp only [expandMask, List.length_map]
  omega

/-- C5 amended: with a mask containing `false` positions, the output is
invariant at every valid (unmasked) position under arbitrary changes of
the input at the masked positions: two same-shaped inputs that agree at
every unmasked position produce outputs that agree at every unmasked
position (the masked query rows themselves may differ, since they still
feed the query projection and the residual additions). -/
theorem call_invariant_at_unmasked_rows (enc : TransformerEncoder)
    (x x2 : Tensor3) (m : Mask2)
    (hlen : x.length = x2.length)
    (hrows : ∀ b : ℕ, (x.getD b []).length = (x2.getD b []).length)
    (hagree : ∀ b i : ℕ, (m.getD b []).getD i true = true →
      (x.getD b []).getD i [] = (x2.getD b []).getD i []) :
    ∀ b i : ℕ, (m.getD b []).getD i true = true →
      ((enc.call x (some m)).getD b []).getD i []
        = ((enc.call x2 (some m)).getD b []).getD i [] := by
  intro b i hmi
  by_cases hb : b < x.length ∧ b < m.length
  · obtain ⟨hbx, hbm⟩ := hb
    rw [call_some_getD enc x m b hbx hbm, call_some_getD enc x2 m b (by omega) hbm]
    exact callBatch_agree enc (x.getD b []) (x2.getD b []) (m.getD b [])
      (hrows b) (fun k _ hk => hagree b k hk) i hmi
  · have h1 : (enc.call x (some m)).getD b [] = [] :=
      getD_of_length_le _ [] (by rw [length_call_some]; omega)
    have h2 : (enc.call x2 (some m)).getD b [] = [] :=
      getD_of_length_le _ [] (by rw [length_call_some]; omega)
    rw [h1, h2]

lemma encCE_attn_row (xs : Mat) (am : Option (List (List Bool))) (i : ℕ)
    (hi : i < xs.length) :
    (mhaBatch encCE.attention xs xs xs am).getD i [] = [0, 0] := by
  rw [mhaBatch_getD _ _ _ _ _ i hi]
  show denseApply (List.replicate 2 (List.replicate 2 (0:ℝ))) (List.replicate 2 (0:ℝ)) _
    = [0, 0]
  rw [denseApply_zeroKernel]
  rfl

lemma encCE_ffn_row (v : Vec) : ffnRow encCE.dense v = [0, 0] := by
  show denseApply (List.replicate 2 (List.replicate 1 (0:ℝ))) (List.replicate 2 (0:ℝ)) _
    = [0, 0]
  rw [denseApply_zeroKernel]
  rfl

lemma lnRow_unit_zero (e : ℝ) :
    lnRow { gamma := [1, 1], beta := [0, 0], eps := e } [0, 0] = [0, 0] := by
  simp [lnRow]

lemma lnRow_unit_pm (e t : ℝ) :
    lnRow { gamma := [1, 1], beta := [0, 0], eps := e } [t, -t]
      = [t / Real.sqrt (t ^ 2 + e), -(t / Real.sqrt (t ^ 2 + e))] := by
  have hmu : ((t + (-t + 0)) / 2 : ℝ) = 0 := by ring
  have hsig : (((t - 0) ^ 2 + ((-t - 0) ^ 2 + 0)) / 2 : ℝ) = t ^ 2 := by ring
  simp only [lnRow, List.sum_cons, List.sum_nil, List.length_cons, List.length_nil,
    List.map_cons, List.map_nil, List.zipWith_cons_cons, List.zipWith_nil_right]
  norm_num [hmu, hsig]
  ring

lemma ce_sideA : ((encCE.call xCE (some mCE)).getD 0 []).getD 1 [] = [0, 0] := by
  rw [call_some_getD encCE xCE mCE 0 (by decide) (by decide),
    callBatch_getD encCE _ _ 1 (by decide),
    encCE_attn_row (xCE.getD 0 []) (some [mCE.getD 0 []]) 1 (by decide)]
  show lnRow encCE.second_layer_norm (addVec
      (lnRow encCE.first_layer_norm (addVec [0, 0] [0, 0]))
      (ffnRow encCE.dense (lnRow encCE.first_layer_norm (addVec [0, 0] [0, 0]))))
    = [0, 0]
  have hadd : addVec ([0, 0] : Vec) ([0, 0] : Vec) = [0, 0] := by simp [addVec]
  rw [hadd,
    show encCE.first_layer_norm = { gamma := [1, 1], beta := [0, 0], eps := 1/1000 }
      from rfl,
    lnRow_unit_zero, encCE_ffn_row, hadd,
    show encCE.second_layer_norm = { gamma := [1, 1], beta := [0, 0], eps := 1/1000 }
      from rfl,
    lnRow_unit_zero]

lemma ce_sideB : ((encCE.call xCE2 (some mCE)).getD 0 []).getD 1 []
    = [((1:ℝ) / Real.sqrt (1 ^ 2 + 1/1000)) /
        Real.sqrt (((1:ℝ) / Real.sqrt (1 ^ 2 + 1/1000)) ^ 2 + 1/1000),
       -(((1:ℝ) / Real.sqrt (1 ^ 2 + 1/1000)) /
        Real.sqrt (((1:ℝ) / Real.sqrt (1 ^ 2 + 1/1000)) ^ 2 + 1/1000))] := by
  rw [call_some_getD encCE xCE2 mCE 0 (by decide) (by decide),
    callBatch_getD encCE _ _ 1 (by decide),
    encCE_attn_row (xCE2.getD 0 []) (some [mCE.getD 0 []]) 1 (by decide)]
  show lnRow encCE.second_layer_norm (addVec
      (lnRow encCE.first_layer_norm (addVec [1, -1] [0, 0]))
      (ffnRow encCE.dense (lnRow encCE.first_layer_norm (addVec [1, -1] [0, 0]))))
    = _
  have hadd1 : addVec ([1, -1] : Vec) ([0, 0] : Vec) = [1, -1] := by simp [addVec]
  rw [hadd1,
    show encCE.first_layer_norm = { gamma := [1, 1], beta := [0, 0], eps := 1/1000 }
      from rfl,
    lnRow_unit_pm, encCE_ffn_row]
  have hadd2 : addVec [(1:ℝ) / Real.sqrt (1 ^ 2 + 1/1000),
      -((1:ℝ) / Real.sqrt (1 ^ 2 + 1/1000))] ([0, 0] : Vec)
      = [(1:ℝ) / Real.sqrt (1 ^ 2 + 1/1000), -((1:ℝ) / Real.sqrt (1 ^ 2 + 1/1000))] := by
    simp [addVec]
  rw [hadd2,
    show encCE.second_layer_norm = { gamma := [1, 1], beta := [0, 0], eps := 1/1000 }
      from rfl,
    lnRow_unit_pm]

/-- C5 counterexample: `xCE` and `xCE2` have the same shape and agree
at every unmasked position of `mCE` (they differ only at the masked
position 1), yet the block maps them to different outputs: the masked
query row still flows through the residual additions and
normalizations of its own output row. -/
theorem masked_positions_affect_output :
    xCE.length = xCE2.length ∧
    (∀ b : ℕ, (xCE.getD b []).length = (xCE2.getD b []).length) ∧
    (∀ b i : ℕ, (mCE.getD b []).getD i true = true →
      (xCE.getD b []).getD i [] = (xCE2.getD b []).getD i []) ∧
    encCE.call xCE (some mCE) ≠ encCE.call xCE2 (some mCE) := by
  refine ⟨rfl, ?_, ?_, ?_⟩
  · intro b
    match b with
    | 0 => rfl
    | b + 1 => rfl
  · intro b i h
    match b, i with
    | 0, 0 => rfl
    | 0, 1 => simp [mCE] at h
    | 0, (i + 2) => rfl
    | (b + 1), i => rfl
  · intro heq
    have h := congrArg (fun y : Tensor3 => ((y.getD 0 []).getD 1 []).getD 0 0) heq
    simp only at h
    rw [ce_sideA, ce_sideB] at h
    have h2 : (0:ℝ) = ((1:ℝ) / Real.sqrt (1 ^ 2 + 1/1000)) /
        Real.sqrt (((1:ℝ) / Real.sqrt (1 ^ 2 + 1/1000)) ^ 2 + 1/1000) := by
      simpa using h
    have hA : 0 < ((1:ℝ) / Real.sqrt (1 ^ 2 + 1/1000)) /
        Real.sqrt (((1:ℝ) / Real.sqrt (1 ^ 2 + 1/1000)) ^ 2 + 1/1000) := by positivity
    rw [← h2] at hA
    exact lt_irrefl 0 hA

/-- Witness for C5 (amended): on the concrete instance, the outputs at
the unmasked position 0 coincide. -/
theorem call_invariant_at_unmasked_rows_witness :
    xCE.length = xCE2.length ∧
    (∀ b : ℕ, (xCE.getD b []).length = (xCE2.getD b []).length) ∧
    (∀ b i : ℕ, (mCE.getD b []).getD i true = true →
      (xCE.getD b []).getD i [] = (xCE2.getD b []).getD i []) ∧
    (mCE.getD 0 []).getD 0 true = true ∧
    ((encCE.call xCE (some mCE)).getD 0 []).getD 0 []
      = ((encCE.call xCE2 (some mCE)).getD 0 []).getD 0 [] := by
  have hrows : ∀ b : ℕ, (xCE.getD b []).length = (xCE2.getD b []).length := by
    intro b
    match b with
    | 0 => rfl
    | b + 1 => rfl
  have hagree : ∀ b i : ℕ, (mCE.getD b []).getD i true = true →
      (xCE.getD b []).getD i [] = (xCE2.getD b []).getD i [] := by
    intro b i h
    match b, i with
    | 0, 0 => rfl
    | 0, 1 => simp [mCE] at h
    | 0, (i + 2) => rfl
    | (b + 1), i => rfl
  exact ⟨rfl, hrows, hagree, by decide,
    call_invariant_at_unmasked_rows encCE xCE xCE2 mCE rfl hrows hagree 0 0 (by decide)⟩

/-- C9: the attention sub-unit is configured with per-head key
dimension equal to the full `embed_dim` (line 54 passes
`key_dim=embed_dim`), so each head projects into an `embed_dim`-sized
subspace. -/
theorem attention_key_dim_is_embed_dim (nh d du : ℕ) (base : BaseConfig)
    (θ : InitWeights) :
    (TransformerEncoder.init nh d du base θ).attention.key_dim = d ∧
    ∀ hd ∈ (TransformerEncoder.init nh d du base θ).attention.heads,
      hd.wqT.length = d ∧ hd.wkT.length = d ∧ hd.wvT.length = d := by
  refine ⟨rfl, ?_⟩
  intro hd hmem
  simp only [TransformerEncoder.init, List.mem_map] at hmem
  obtain ⟨h, _, rfl⟩ := hmem
  simp [colMatrix]

/-- C4 counterexample: `num_heads = 3` does not divide
`embed_dim = 4`, yet construction succeeds and produces an instance. -/
theorem construction_succeeds_without_divisibility :
    ¬ (3 ∣ 4) ∧
    TransformerEncoder.initChecked 3 4 5 baseCE θ0 =
      Except.ok (TransformerEncoder.init 3 4 5 baseCE θ0) :=
  ⟨by decide, rfl⟩

/-- C4 amended: construction never fails, for any head count and
embedding dimensionality; no divisibility between them is required or
checked, because the attention sub-unit receives the per-head key
dimension (`embed_dim`) explicitly. -/
theorem initChecked_always_ok (nh d du : ℕ) (base : BaseConfig) (θ : InitWeights) :
    TransformerEncoder.initChecked nh d du base θ =
      Except.ok (TransformerEncoder.init nh d du base θ) ∧
    (TransformerEncoder.init nh d du base θ).attention.key_dim = d :=
  ⟨rfl, rfl⟩

/-- C7: `get_config` contains the three hyperparameters under their
keys, merged with the base configuration, and reconstructing from the
returned mapping (with fresh weights) yields an instance with the same
head count, embedding dimensionality, and hidden width. -/
theorem get_config_roundtrip (nh d du : ℕ) (base : BaseConfig) (θ θ2 : InitWeights) :
    ((TransformerEncoder.init nh d du base θ).get_config.getNat "num_heads" = some nh) ∧
    ((TransformerEncoder.init nh d du base θ).get_config.getNat "embed_dim" = some d) ∧
    ((TransformerEncoder.init nh d du base θ).get_config.getNat "dense_units" = some du) ∧
    ((TransformerEncoder.init nh d du base θ).get_config.getStr "name" = some base.name) ∧
    ∃ enc2, TransformerEncoder.fromConfig
        (TransformerEncoder.init nh d du base θ).get_config θ2 = some enc2 ∧
      enc2.num_heads = nh ∧ enc2.embed_dim = d ∧ enc2.dense_units = du :=
  ⟨rfl, rfl, rfl, rfl, _, rfl, rfl, rfl, rfl⟩

/-- C8: `call` is deterministic and has no effect on the instance:
evaluating twice on the same input with no update in between yields
equal outputs, and the instance state after a call is the instance
state before it. -/
theorem call_deterministic_and_stateless (enc : TransformerEncoder)
    (x : Tensor3) (m : Option Mask2) :
    (enc.evalTwice x m).1.1 = (enc.evalTwice x m).1.2 ∧
    (enc.evalTwice x m).2 = enc ∧
    enc.callWithState x m = (enc, enc.call x m) :=
  ⟨rfl, rfl, rfl⟩

/-- C10: importing the module sets the framework-wide random seed to
the constant 42, whatever the prior state was. -/
theorem import_sets_global_seed_42 (s s2 : FrameworkState) :
    importEncoderModule s = { s with randomSeed := 42 } ∧
    (importEncoderModule s).randomSeed = 42 ∧
    (importEncoderModule s).randomSeed = (importEncoderModule s2).randomSeed :=
  ⟨rfl, rfl, rfl⟩
